import Mathlib

set_option linter.unusedVariables false

/-!
Verification development for the COMPASSmod native core.

The repository ships two source files: `src/src/COMPASS_init.c`, which holds the
forward declarations of every native routine together with the `.Call`
registration table `callMethods`, and `src/src/RcppExports.cpp`, which holds the
Rcpp wrappers around the two CellCounts entry points.  The declarations and the
registration table are embedded below as explicit data.  The bodies of the
numeric routines (the combinatorial counter, the category-probability sampler,
the hyperparameter updaters and the category-activation sampler) are not part
of the shipped sources; where a claim depends on such a body it is modelled
from the specification, and each such definition says so in its doc comment.
-/

namespace COMPASS

/-- The native routines forward-declared in `src/src/COMPASS_init.c`. -/
inductive DLFunc where
  | melt_dataframe
  | melt_matrix
  | transpose_list
  | COMPASS_CellCounts_character
  | COMPASS_CellCounts
  | samplePuPs
  | samplePuPs_full
  | updatealphas_Exp
  | updatealphas_Exp_MH
  | updatealphau_noPu_Exp
  | updatealphau_noPu_Exp_MH
  | updategammak_noPu
  deriving DecidableEq, Repr

/-- The parameter list of each forward declaration in `src/src/COMPASS_init.c`,
in source order.  Every parameter there has type `SEXP`; only the names and
their count matter for the registration invariants. -/
def paramsOf : DLFunc → List String
  | .melt_dataframe => ["x", "id_ind_", "val_ind_", "variable_name", "value_name"]
  | .melt_matrix => ["x"]
  | .transpose_list => ["x"]
  | .COMPASS_CellCounts_character => ["dataSEXP", "combinationsSEXP"]
  | .COMPASS_CellCounts => ["xSEXP", "combosSEXP"]
  | .samplePuPs => ["alphau", "alphas", "gammat", "T", "K", "nsi", "nui", "d", "M"]
  | .samplePuPs_full => ["alphau", "alphas", "gammat", "T", "K", "nsi", "nui", "d", "M"]
  | .updatealphas_Exp =>
      ["alphast", "n_s", "K", "I", "lambda_s", "gammat", "var_1", "var_2", "p_var", "ttt"]
  | .updatealphas_Exp_MH =>
      ["alphast", "n_s", "K", "I", "lambda_s", "gammat", "var_1", "var_2", "p_var"]
  | .updatealphau_noPu_Exp =>
      ["alphaut", "n_s", "n_u", "I", "K", "lambda_u", "var_p", "ttt", "gammat"]
  | .updatealphau_noPu_Exp_MH =>
      ["alphaut", "n_s", "n_u", "I", "K", "lambda_u", "var_p", "gammat"]
  | .updategammak_noPu =>
      ["n_s", "n_u", "gammat", "I", "K", "SS", "alphau", "alphas", "alpha", "mk",
       "Istar", "mKstar", "pp", "pb1", "pb2", "indi"]

/-- One row of the `R_CallMethodDef` registration table: the registered `.Call`
name, the function pointer (here: which declared routine it points to), and the
declared argument count.  The terminating sentinel row has both pointers NULL,
modelled as `none`, and argument count 0. -/
structure RegEntry where
  regName : Option String
  fn : Option DLFunc
  numArgs : Nat
  deriving DecidableEq, Repr

/-- The `callMethods` registration table of `src/src/COMPASS_init.c`, row by
row in source order, including the terminating `{NULL, NULL, 0}` sentinel. -/
def callMethods : List RegEntry :=
  [ ⟨some "C_melt_dataframe", some .melt_dataframe, 5⟩,
    ⟨some "C_melt_matrix", some .melt_matrix, 1⟩,
    ⟨some "C_transpose_list", some .transpose_list, 1⟩,
    ⟨some "C_COMPASS_CellCounts_character", some .COMPASS_CellCounts_character, 2⟩,
    ⟨some "C_COMPASS_CellCounts", some .COMPASS_CellCounts, 2⟩,
    ⟨some "C_samplePuPs", some .samplePuPs, 9⟩,
    ⟨some "C_samplePuPs_full", some .samplePuPs_full, 9⟩,
    ⟨some "C_updatealphas_Exp", some .updatealphas_Exp, 10⟩,
    ⟨some "C_updatealphas_Exp_MH", some .updatealphas_Exp_MH, 9⟩,
    ⟨some "C_updatealphau_noPu_Exp", some .updatealphau_noPu_Exp, 9⟩,
    ⟨some "C_updatealphau_noPu_Exp_MH", some .updatealphau_noPu_Exp_MH, 8⟩,
    ⟨some "C_updategammak_noPu", some .updategammak_noPu, 16⟩,
    ⟨none, none, 0⟩ ]

/-! ### Combinatorial counter

Modelled from the spec: the bodies of `CellCounts` and `CellCounts_character`
are not under `src/` (only their Rcpp wrappers and registration are).  The spec
gives the contract: per-cell boolean marker-positivity records, category
definitions assigning true/false to every marker, exact-equality matching,
rows in subject order and columns in category-list order, and an error on an
empty cell table or on category definitions referencing absent markers. -/

/-- Numeric/logical encoding of one cell: one integer per marker, where a
nonzero value codes marker-positivity (R logical/numeric coercion). -/
def decodeNumericCell (cell : List Int) : List Bool :=
  cell.map (fun v => v != 0)

/-- Categorical (string-labeled) encoding of one cell: one label per marker;
the marker is positive exactly when the label equals that marker's designated
positive label. -/
def decodeCharCell (posLabels : List String) (cell : List String) : List Bool :=
  List.zipWith (fun lab s => s == lab) posLabels cell

/-- Modelled from the spec: input to `CellCounts` — `m` marker columns and a
per-subject table of per-cell integer marker values. -/
structure NumData where
  m : Nat
  subjects : List (List (List Int))
  deriving DecidableEq, Repr

/-- Modelled from the spec: input to `CellCounts_character` — `m` marker
columns, the positive label of each marker, and a per-subject table of
per-cell labels. -/
structure CharData where
  m : Nat
  posLabels : List String
  subjects : List (List (List String))
  deriving DecidableEq, Repr

/-- Number of cells whose marker-positivity vector is identical to the
category's definition across all markers (exact equality, not a mask test). -/
def countMatching (cells : List (List Bool)) (combo : List Bool) : Nat :=
  (cells.filter (fun c => c == combo)).length

/-- Count matrix over decoded data: one row per subject in input order, one
column per category in the order of the supplied list. -/
def cellCountsCore (subjects : List (List (List Bool))) (combos : List (List Bool)) :
    List (List Nat) :=
  subjects.map (fun cells => combos.map (fun cb => countMatching cells cb))

/-- Validation modelled from the spec: the cell table must be non-empty, every
cell must have exactly `m` marker entries, and every category definition must
assign a value to exactly the `m` markers present in the data (a longer or
shorter definition references markers absent from the data). -/
def validShape {α : Type} (m : Nat) (subjects : List (List (List α)))
    (combos : List (List Bool)) : Bool :=
  !subjects.isEmpty &&
    subjects.all (fun cells => cells.all (fun c => c.length == m)) &&
    combos.all (fun cb => cb.length == m)

/-- Modelled from the spec: the numeric/logical entry point of the
combinatorial counter (`CellCounts`; body absent from `src/`). -/
def CellCounts (x : NumData) (combos : List (List Bool)) :
    Except String (List (List Nat)) :=
  if validShape x.m x.subjects combos then
    .ok (cellCountsCore (x.subjects.map (fun cells => cells.map decodeNumericCell)) combos)
  else
    .error "CellCounts: empty cell table or combination referencing an absent marker"

/-- Modelled from the spec: the categorical entry point of the combinatorial
counter (`CellCounts_character`; body absent from `src/`). -/
def CellCounts_character (dat : CharData) (combos : List (List Bool)) :
    Except String (List (List Nat)) :=
  if validShape dat.m dat.subjects combos && dat.posLabels.length == dat.m then
    .ok (cellCountsCore
      (dat.subjects.map (fun cells => cells.map (decodeCharCell dat.posLabels))) combos)
  else
    .error "CellCounts: empty cell table or combination referencing an absent marker"

/-- Row sums of a count matrix. -/
def rowSums (mat : List (List Nat)) : List Nat :=
  mat.map (fun row => row.sum)

/-- Per-subject total number of cells in a numeric table. -/
def subjectTotals (x : NumData) : List Nat :=
  x.subjects.map (fun cells => cells.length)

/-- Concrete input refuting the unrestricted conservation law: one marker, one
subject with a single all-negative cell, and the category list `K = 2^1 - 1`
with the all-negative combination excluded. -/
def conservationGap : NumData := ⟨1, [[[0]]]⟩

/-! ### Rcpp wrapper guards (from src/src/RcppExports.cpp) -/

/-- Outcome of running the underlying native C++ function: a value, or a
thrown C++ exception carrying a message. -/
inductive CppOutcome (α : Type) where
  | ok (val : α)
  | thrown (msg : String)
  deriving DecidableEq, Repr

/-- What a `.Call` wrapper hands back to R: a value, or an R error condition
raised on the R side. -/
inductive RReturn (α : Type) where
  | value (val : α)
  | rError (msg : String)
  deriving DecidableEq, Repr

/-- Observable events of one wrapper invocation, in order: establishing the
RNG scope, evaluating the underlying C++ function, and (only on a thrown
exception) converting it to an R error. -/
inductive WrapEvent where
  | rngScopeEstablish
  | evalUnderlying
  | catchToRError
  deriving DecidableEq, Repr

/-- Shallow embedding of the Rcpp-generated wrapper body shared by
`_COMPASS_CellCounts` and `_COMPASS_CellCounts_character` in
`src/src/RcppExports.cpp`: `BEGIN_RCPP` opens a try block, an `RNGScope` is
established before the underlying function is evaluated, the result is
wrapped, and `END_RCPP` catches any C++ exception and converts it into an R
error delivered to the caller. -/
def rcppWrap {α β γ : Type} (inner : α → β → CppOutcome γ) (a : α) (b : β) :
    RReturn γ × List WrapEvent :=
  match inner a b with
  | .ok v => (.value v, [.rngScopeEstablish, .evalUnderlying])
  | .thrown m => (.rError m, [.rngScopeEstablish, .evalUnderlying, .catchToRError])

/-- The underlying C++ counter as native code: a validation failure is raised
as a C++ exception (Rcpp's `stop`), which must not cross the native
boundary. -/
def cellCountsNative (x : NumData) (combos : List (List Bool)) :
    CppOutcome (List (List Nat)) :=
  match CellCounts x combos with
  | .ok m => .ok m
  | .error msg => .thrown msg

/-- The underlying categorical C++ counter as native code. -/
def cellCountsCharNative (dat : CharData) (combos : List (List Bool)) :
    CppOutcome (List (List Nat)) :=
  match CellCounts_character dat combos with
  | .ok m => .ok m
  | .error msg => .thrown msg

/-- The `_COMPASS_CellCounts` wrapper of `src/src/RcppExports.cpp`. -/
def COMPASS_CellCounts_wrapper (x : NumData) (combos : List (List Bool)) :
    RReturn (List (List Nat)) × List WrapEvent :=
  rcppWrap cellCountsNative x combos

/-- The `_COMPASS_CellCounts_character` wrapper of `src/src/RcppExports.cpp`. -/
def COMPASS_CellCounts_character_wrapper (dat : CharData) (combos : List (List Bool)) :
    RReturn (List (List Nat)) × List WrapEvent :=
  rcppWrap cellCountsCharNative dat combos

/-! ### Category-probability sampler

Modelled from the spec: the bodies of `samplePuPs` and `samplePuPs_full` are
not under `src/` (only their declarations and registration are).  The spec:
per subject, `Ps[i]` and `Pu[i]` are Dirichlet-type draws whose concentration
parameters add the hyperparameter to the observed counts per category; the
restricted variant renormalizes mass only over active categories, the full
variant allocates mass to every category; a numerically degenerate row is
floor-clamped to a small positive epsilon before renormalization; outputs must
be valid simplices to floating tolerance 1e-9.  The gamma draws of the
Dirichlet simulation are abstracted as explicit positive random inputs. -/

/-- The floating tolerance the spec states for row sums. -/
def tol : ℚ := 1 / 1000000000

/-- The small positive floor used to clamp a degenerate row before
renormalization (spec's error-handling category (d)). -/
def eps : ℚ := 1 / 1000000

/-- A valid per-subject probability row: non-negative entries whose sum is 1
within the spec's floating tolerance. -/
def simplexRow (p : List ℚ) : Prop :=
  (∀ q ∈ p, 0 ≤ q) ∧ |p.sum - 1| ≤ tol

/-- Floor-clamp a degenerate (all-zero) row to the positive floor `eps`
before renormalization. -/
def clampRow (g : List ℚ) : List ℚ :=
  if g.sum = 0 then g.map (fun _ => eps) else g

/-- Renormalize a row to unit sum. -/
def normalizeRow (g : List ℚ) : List ℚ :=
  g.map (fun q => q / g.sum)

/-- One Dirichlet-type row draw: scale each concentration by its positive
gamma draw, floor-clamp a degenerate row, and renormalize. -/
def dirichletRow (conc r : List ℚ) : List ℚ :=
  normalizeRow (clampRow (List.zipWith (fun a u => a * u) conc r))

/-- Concentration row of the restricted sampler: the hyperparameter plus the
count on active categories, zero mass on inactive ones. -/
def restrictedConcRow (alpha : ℚ) (gam : List Bool) (ns : List Nat) : List ℚ :=
  List.zipWith (fun (g : Bool) (n : Nat) => if g then alpha + (n : ℚ) else 0) gam ns

/-- Concentration row of the full sampler: the hyperparameter plus the count
on every one of the `K` categories. -/
def fullConcRow (alpha : ℚ) (ns : List Nat) : List ℚ :=
  ns.map (fun (n : Nat) => alpha + (n : ℚ))

/-- Modelled from the spec: `samplePuPs` (body absent from `src/`), restricted
to currently active categories.  Takes the nine declared inputs `alphau`,
`alphas`, `gammat`, `T`, `K`, `nsi`, `nui`, `d`, `M` (the prior constants `d`,
`M` and the dimension `T` are fixed run constants the spec does not place
inside the draw itself) plus the abstracted per-subject gamma draws `rs`,
`ru`; returns the pair `(Ps, Pu)` of per-subject probability rows. -/
def samplePuPs (alphau alphas : ℚ) (gammat : List (List Bool)) (T K : Nat)
    (nsi nui : List (List Nat)) (d M : ℚ) (rs ru : List (List ℚ)) :
    List (List ℚ) × List (List ℚ) :=
  (List.zipWith (fun gn r => dirichletRow (restrictedConcRow alphas gn.1 gn.2) r)
      (gammat.zip nsi) rs,
   List.zipWith (fun n r => dirichletRow (fullConcRow alphau n) r) nui ru)

/-- Modelled from the spec: `samplePuPs_full` (body absent from `src/`),
drawing over the full category space so that every category keeps positive
mass. -/
def samplePuPs_full (alphau alphas : ℚ) (gammat : List (List Bool)) (T K : Nat)
    (nsi nui : List (List Nat)) (d M : ℚ) (rs ru : List (List ℚ)) :
    List (List ℚ) × List (List ℚ) :=
  (List.zipWith (fun n r => dirichletRow (fullConcRow alphas n) r) nsi rs,
   List.zipWith (fun n r => dirichletRow (fullConcRow alphau n) r) nui ru)

/-! ### Hyperparameter updaters

Modelled from the spec: the bodies of `updatealphas_Exp`, `updatealphas_Exp_MH`,
`updatealphau_noPu_Exp` and `updatealphau_noPu_Exp_MH` are not under `src/`
(only their declarations and registration are).  The spec: the `_MH` variants
propose a candidate from a symmetric proposal scaled by the tuning variance and
accept or reject via a log-space acceptance ratio built from the exponential
prior and the induced likelihood over the counts (the likelihood's closed form
is not given by the spec, so it is abstracted as an explicit function
argument `L`); the plain variants perform an exact conditional draw (abstracted
as a quantile function `F` applied to the uniform draw); all inputs except the
target hyperparameter are left unmodified and the newly drawn scalar is
returned. -/

/-- Inputs of the stimulated updaters, one field per declared parameter of
`updatealphas_Exp_MH` in `src/src/COMPASS_init.c`. -/
structure AlphasInputs where
  alphast : ℚ
  n_s : List (List Nat)
  K : Nat
  I : Nat
  lambda_s : ℚ
  gammat : List (List Bool)
  var_1 : ℚ
  var_2 : ℚ
  p_var : ℚ
  deriving DecidableEq, Repr

/-- Inputs of the unstimulated updaters, one field per declared parameter of
`updatealphau_noPu_Exp_MH` in `src/src/COMPASS_init.c`. -/
structure AlphauInputs where
  alphaut : ℚ
  n_s : List (List Nat)
  n_u : List (List Nat)
  I : Nat
  K : Nat
  lambda_u : ℚ
  var_p : ℚ
  gammat : List (List Bool)
  deriving DecidableEq, Repr

/-- One Metropolis-Hastings scalar step in log space: propose
`cand = cur + scale * z`, score both points by the exponential-prior log
density `-lambda * a` plus the abstracted count log-likelihood `L a`, and
accept when the log uniform draw is below the log acceptance difference. -/
def mhDraw (L : ℚ → ℚ) (lambda cur scale z logU : ℚ) : ℚ :=
  let cand := cur + scale * z
  let logAccept := (L cand - lambda * cand) - (L cur - lambda * cur)
  if logU ≤ logAccept then cand else cur

/-- Modelled from the spec: `updatealphas_Exp_MH` (body absent from `src/`).
Returns the newly drawn `alphas` scalar together with the post-call state. -/
def updatealphas_Exp_MH (L : ℚ → ℚ) (st : AlphasInputs) (z logU : ℚ) :
    ℚ × AlphasInputs :=
  let a := mhDraw L st.lambda_s st.alphast st.p_var z logU
  (a, { st with alphast := a })

/-- Modelled from the spec: `updatealphas_Exp` (body absent from `src/`), the
plain exact-conditional variant; `F` is the conditional quantile function and
`u` the uniform draw, `ttt` the extra declared input. -/
def updatealphas_Exp (F : ℚ → ℚ) (st : AlphasInputs) (ttt : Nat) (u : ℚ) :
    ℚ × AlphasInputs :=
  let a := F u
  (a, { st with alphast := a })

/-- Modelled from the spec: `updatealphau_noPu_Exp_MH` (body absent from
`src/`). -/
def updatealphau_noPu_Exp_MH (L : ℚ → ℚ) (st : AlphauInputs) (z logU : ℚ) :
    ℚ × AlphauInputs :=
  let a := mhDraw L st.lambda_u st.alphaut st.var_p z logU
  (a, { st with alphaut := a })

/-- Modelled from the spec: `updatealphau_noPu_Exp` (body absent from
`src/`), the plain exact-conditional variant with extra declared input
`ttt`. -/
def updatealphau_noPu_Exp (F : ℚ → ℚ) (st : AlphauInputs) (ttt : Nat) (u : ℚ) :
    ℚ × AlphauInputs :=
  let a := F u
  (a, { st with alphaut := a })

/-! ### Category-activation sampler counters

Modelled from the spec: the body of `updategammak_noPu` is not under `src/`
(only its declaration and registration are).  The spec: each candidate
add/remove of a category is scored by a Metropolis-Hastings acceptance ratio;
`pb1` is incremented on each proposal and `pb2` on each acceptance, never
decremented; `pb1 ≥ pb2 ≥ 0` and both are monotonically non-decreasing within
one chain. -/

/-- The activation state carried across iterations: the per-subject activation
indicators and the two acceptance counters (as naturals: non-negative by
construction). -/
structure GammaKState where
  gammat : List (List Bool)
  pb1 : Nat
  pb2 : Nat
  deriving DecidableEq, Repr

/-- Flip one entry of a boolean row. -/
def flipAt : Nat → List Bool → List Bool
  | _, [] => []
  | 0, b :: bs => (!b) :: bs
  | n + 1, b :: bs => b :: flipAt n bs

/-- Flip the activation indicator of subject `i`, category `k`. -/
def flipEntry : Nat → Nat → List (List Bool) → List (List Bool)
  | _, _, [] => []
  | 0, k, row :: rest => flipAt k row :: rest
  | i + 1, k, row :: rest => row :: flipEntry i k rest

/-- One proposal of the activation sampler: the candidate `(i, k)` with its
uniform draw `u` is always tallied in `pb1`; when `u` falls below the
MH score of the candidate the flip is applied and tallied in `pb2`. -/
def gammaProposalStep (score : Nat → Nat → ℚ) (st : GammaKState)
    (p : Nat × Nat × ℚ) : GammaKState :=
  let st1 : GammaKState := { st with pb1 := st.pb1 + 1 }
  if p.2.2 ≤ score p.1 p.2.1 then
    { st1 with gammat := flipEntry p.1 p.2.1 st1.gammat, pb2 := st1.pb2 + 1 }
  else st1

/-- Modelled from the spec: the proposal/acceptance bookkeeping of
`updategammak_noPu` (body absent from `src/`): fold the proposal sequence of
one or more iterations over the activation state. -/
def updategammak_noPu (score : Nat → Nat → ℚ) (proposals : List (Nat × Nat × ℚ))
    (st : GammaKState) : GammaKState :=
  proposals.foldl (gammaProposalStep score) st

/-- The proposals of a sequence that are accepted by the MH score. -/
def acceptedCount (score : Nat → Nat → ℚ) (proposals : List (Nat × Nat × ℚ)) : Nat :=
  (proposals.filter (fun p => decide (p.2.2 ≤ score p.1 p.2.1))).length

/-! ### Concrete inputs used by the witness theorems -/

/-- A two-marker numeric table: one subject with two cells, positivity
patterns `[true, false]` and `[false, true]`. -/
def numExample : NumData := ⟨2, [[[1, 0], [0, 5]]]⟩

/-- The same cells in the categorical encoding, positive label `"+"` for both
markers. -/
def charExample : CharData := ⟨2, ["+", "+"], [[["+", "-"], ["-", "+"]]]⟩

/-- One category: first marker positive, second negative. -/
def comboExample : List (List Bool) := [[true, false]]

/-- One marker, one subject with two cells (one positive, one negative), and
the exhaustive duplicate-free category list. -/
def conservationOkInput : NumData := ⟨1, [[[1], [0]]]⟩

/-- The exhaustive duplicate-free category list over one marker. -/
def conservationOkCombos : List (List Bool) := [[true], [false]]

/-- An empty cell table: the counter rejects it, so its native wrapper must
convert the raised exception. -/
def emptyNumInput : NumData := ⟨1, []⟩

/-- An empty categorical cell table. -/
def emptyCharInput : CharData := ⟨1, ["+"], []⟩

/-- The validation message of the modelled counter. -/
def cellCountsErrMsg : String :=
  "CellCounts: empty cell table or combination referencing an absent marker"

/-- A constant MH score used by the activation-counter witness. -/
def gammaScoreExample : Nat → Nat → ℚ := fun _ _ => 1 / 2

/-- Two proposals: the first (draw 0) is accepted, the second (draw 1) is
rejected against the score 1/2. -/
def gammaPropsExample : List (Nat × Nat × ℚ) := [(0, 0, 0), (0, 0, 1)]

/-- An activation state with counters `pb1 = 3`, `pb2 = 2`. -/
def gammaStateExample : GammaKState := ⟨[[false]], 3, 2⟩

end COMPASS

namespace COMPASS

/-- C9: In the registration table `callMethods`, every entry's declared
argument count equals the number of `SEXP` parameters of the routine it points
to (5 for melt_dataframe; 1 each for melt_matrix and transpose_list; 2 each for
the two CellCounts entry points; 9 each for samplePuPs, samplePuPs_full,
updatealphas_Exp_MH and updatealphau_noPu_Exp; 10 for updatealphas_Exp; 8 for
updatealphau_noPu_Exp_MH; 16 for updategammak_noPu), and the table ends with
the `{NULL, NULL, 0}` sentinel. -/
theorem callMethods_arity_consistent :
    (∀ e ∈ callMethods, ∀ f, e.fn = some f → e.numArgs = (paramsOf f).length) ∧
    (paramsOf .melt_dataframe).length = 5 ∧
    (paramsOf .melt_matrix).length = 1 ∧
    (paramsOf .transpose_list).length = 1 ∧
    (paramsOf .COMPASS_CellCounts).length = 2 ∧
    (paramsOf .COMPASS_CellCounts_character).length = 2 ∧
    (paramsOf .samplePuPs).length = 9 ∧
    (paramsOf .samplePuPs_full).length = 9 ∧
    (paramsOf .updatealphas_Exp_MH).length = 9 ∧
    (paramsOf .updatealphau_noPu_Exp).length = 9 ∧
    (paramsOf .updatealphas_Exp).length = 10 ∧
    (paramsOf .updatealphau_noPu_Exp_MH).length = 8 ∧
    (paramsOf .updategammak_noPu).length = 16 ∧
    callMethods.getLast? = some ⟨none, none, 0⟩ := by
  decide

/-- C6: `samplePuPs` and `samplePuPs_full` each accept exactly the nine inputs
`alphau`, `alphas`, `gammat`, `T`, `K`, `nsi`, `nui`, `d`, `M`, and each is
registered in `callMethods` as a `.Call` routine of arity 9. -/
theorem samplePuPs_interface :
    paramsOf .samplePuPs = ["alphau", "alphas", "gammat", "T", "K", "nsi", "nui", "d", "M"] ∧
    paramsOf .samplePuPs_full = ["alphau", "alphas", "gammat", "T", "K", "nsi", "nui", "d", "M"] ∧
    (⟨some "C_samplePuPs", some .samplePuPs, 9⟩ : RegEntry) ∈ callMethods ∧
    (⟨some "C_samplePuPs_full", some .samplePuPs_full, 9⟩ : RegEntry) ∈ callMethods := by
  decide

/-- C5 counterexample: `updatealphas_Exp` does not take exactly the nine inputs
the claim lists — its declaration has a tenth parameter `ttt`, which is not
among them. -/
theorem updatealphas_Exp_extra_input :
    "ttt" ∈ paramsOf .updatealphas_Exp ∧
    "ttt" ∉ ["alphast", "n_s", "K", "I", "lambda_s", "gammat", "var_1", "var_2", "p_var"] := by
  decide

/-- C5 amended: `updatealphas_Exp_MH` takes exactly the current `alphast` plus
`n_s`, `K`, `I`, `lambda_s`, `gammat`, `var_1`, `var_2`, `p_var`;
`updatealphas_Exp` takes those same nine followed by one additional input
`ttt`; each returns the newly drawn `alphas` scalar (the returned value is
exactly what the post-call state holds as `alphast`). -/
theorem updatealphas_inputs :
    paramsOf .updatealphas_Exp_MH =
      ["alphast", "n_s", "K", "I", "lambda_s", "gammat", "var_1", "var_2", "p_var"] ∧
    paramsOf .updatealphas_Exp =
      ["alphast", "n_s", "K", "I", "lambda_s", "gammat", "var_1", "var_2", "p_var"] ++ ["ttt"] ∧
    (∀ (L : ℚ → ℚ) (st : AlphasInputs) (z logU : ℚ),
      (updatealphas_Exp_MH L st z logU).1 = (updatealphas_Exp_MH L st z logU).2.alphast) ∧
    (∀ (F : ℚ → ℚ) (st : AlphasInputs) (ttt : Nat) (u : ℚ),
      (updatealphas_Exp F st ttt u).1 = (updatealphas_Exp F st ttt u).2.alphast) :=
  ⟨by decide, by decide, fun _ _ _ _ => rfl, fun _ _ _ _ => rfl⟩

/-- C7: For every call of a hyperparameter updater, the post-call state is the
input state with only the target hyperparameter replaced, and the replacement
is exactly the returned scalar: every input other than the target is left
unmodified. -/
theorem updaters_frame (L F : ℚ → ℚ) (ss : AlphasInputs) (su : AlphauInputs)
    (ttt : Nat) (z logU u : ℚ) :
    (updatealphas_Exp F ss ttt u).2
      = { ss with alphast := (updatealphas_Exp F ss ttt u).1 } ∧
    (updatealphas_Exp_MH L ss z logU).2
      = { ss with alphast := (updatealphas_Exp_MH L ss z logU).1 } ∧
    (updatealphau_noPu_Exp F su ttt u).2
      = { su with alphaut := (updatealphau_noPu_Exp F su ttt u).1 } ∧
    (updatealphau_noPu_Exp_MH L su z logU).2
      = { su with alphaut := (updatealphau_noPu_Exp_MH L su z logU).1 } :=
  ⟨rfl, rfl, rfl, rfl⟩

/-- Helper: a run of the activation sampler adds exactly one `pb1` tally per
proposal. -/
theorem updategammak_pb1_eq (score : Nat → Nat → ℚ) :
    ∀ (props : List (Nat × Nat × ℚ)) (st : GammaKState),
      (updategammak_noPu score props st).pb1 = st.pb1 + props.length := by
  intro props
  induction props with
  | nil => intro st; rfl
  | cons p ps ih =>
    intro st
    have hstep : (gammaProposalStep score st p).pb1 = st.pb1 + 1 := by
      unfold gammaProposalStep
      split <;> rfl
    calc (updategammak_noPu score (p :: ps) st).pb1
        = (updategammak_noPu score ps (gammaProposalStep score st p)).pb1 := rfl
      _ = (gammaProposalStep score st p).pb1 + ps.length := ih _
      _ = st.pb1 + (p :: ps).length := by rw [hstep]; simp; omega

/-- Helper: a run of the activation sampler adds exactly one `pb2` tally per
accepted proposal. -/
theorem updategammak_pb2_eq (score : Nat → Nat → ℚ) :
    ∀ (props : List (Nat × Nat × ℚ)) (st : GammaKState),
      (updategammak_noPu score props st).pb2 = st.pb2 + acceptedCount score props := by
  intro props
  induction props with
  | nil => intro st; rfl
  | cons p ps ih =>
    intro st
    by_cases hacc : p.2.2 ≤ score p.1 p.2.1
    · have hstep : (gammaProposalStep score st p).pb2 = st.pb2 + 1 := by
        unfold gammaProposalStep
        rw [if_pos hacc]
      calc (updategammak_noPu score (p :: ps) st).pb2
          = (gammaProposalStep score st p).pb2 + acceptedCount score ps := ih _
        _ = st.pb2 + acceptedCount score (p :: ps) := by
            rw [hstep]
            simp [acceptedCount, List.filter_cons, hacc]
            omega
    · have hstep : (gammaProposalStep score st p).pb2 = st.pb2 := by
        unfold gammaProposalStep
        rw [if_neg hacc]
      calc (updategammak_noPu score (p :: ps) st).pb2
          = (gammaProposalStep score st p).pb2 + acceptedCount score ps := ih _
        _ = st.pb2 + acceptedCount score (p :: ps) := by
            rw [hstep]
            simp [acceptedCount, List.filter_cons, hacc]

/-- Helper: the accepted proposals are a sublist, so never more numerous than
the proposals. -/
theorem acceptedCount_le (score : Nat → Nat → ℚ) (props : List (Nat × Nat × ℚ)) :
    acceptedCount score props ≤ props.length :=
  List.length_filter_le _ _

/-- C8: Across any proposal sequence of a chain, the acceptance counters of
`updategammak_noPu` satisfy `pb1 ≥ pb2 ≥ 0` and are monotonically
non-decreasing: `pb1` grows by exactly one per proposal and `pb2` by exactly
one per acceptance, and neither is ever decremented. -/
theorem updategammak_counters (score : Nat → Nat → ℚ)
    (props : List (Nat × Nat × ℚ)) (st : GammaKState) (h : st.pb2 ≤ st.pb1) :
    st.pb1 ≤ (updategammak_noPu score props st).pb1 ∧
    st.pb2 ≤ (updategammak_noPu score props st).pb2 ∧
    (updategammak_noPu score props st).pb2 ≤ (updategammak_noPu score props st).pb1 ∧
    (updategammak_noPu score props st).pb1 = st.pb1 + props.length ∧
    (updategammak_noPu score props st).pb2 = st.pb2 + acceptedCount score props := by
  have h1 := updategammak_pb1_eq score props st
  have h2 := updategammak_pb2_eq score props st
  have h3 := acceptedCount_le score props
  omega

/-- C8 witness: counters `(pb1, pb2) = (3, 2)` run over two proposals of which
one is accepted. -/
theorem updategammak_counters_witness :
    gammaStateExample.pb2 ≤ gammaStateExample.pb1 ∧
    (gammaStateExample.pb1 ≤ (updategammak_noPu gammaScoreExample gammaPropsExample gammaStateExample).pb1 ∧
     gammaStateExample.pb2 ≤ (updategammak_noPu gammaScoreExample gammaPropsExample gammaStateExample).pb2 ∧
     (updategammak_noPu gammaScoreExample gammaPropsExample gammaStateExample).pb2
       ≤ (updategammak_noPu gammaScoreExample gammaPropsExample gammaStateExample).pb1 ∧
     (updategammak_noPu gammaScoreExample gammaPropsExample gammaStateExample).pb1
       = gammaStateExample.pb1 + gammaPropsExample.length ∧
     (updategammak_noPu gammaScoreExample gammaPropsExample gammaStateExample).pb2
       = gammaStateExample.pb2 + acceptedCount gammaScoreExample gammaPropsExample) :=
  ⟨by decide,
   updategammak_counters gammaScoreExample gammaPropsExample gammaStateExample (by decide)⟩

/-- Helper: an accepted `CellCounts` call returns exactly the core count
matrix of the decoded table. -/
theorem CellCounts_ok_eq (x : NumData) (combos : List (List Bool))
    (mat : List (List Nat)) (hok : CellCounts x combos = .ok mat) :
    mat = cellCountsCore (x.subjects.map (fun cells => cells.map decodeNumericCell)) combos := by
  unfold CellCounts at hok
  split at hok
  · exact (Except.ok.inj hok).symm
  · simp at hok

/-- C2: Equivalent inputs — same marker count, decoded to the same per-cell
marker-positivity vectors, both passing validation — make the numeric entry
point `CellCounts` and the categorical entry point `CellCounts_character`
return bit-identical count matrices. -/
theorem CellCounts_encoding_invariant (x : NumData) (dat : CharData)
    (combos : List (List Bool))
    (hpl : dat.posLabels.length = dat.m)
    (hv1 : validShape x.m x.subjects combos = true)
    (hv2 : validShape dat.m dat.subjects combos = true)
    (hdec : x.subjects.map (fun cells => cells.map decodeNumericCell)
      = dat.subjects.map (fun cells => cells.map (decodeCharCell dat.posLabels))) :
    CellCounts x combos = CellCounts_character dat combos := by
  unfold CellCounts CellCounts_character
  rw [if_pos hv1, if_pos (by simp [hv2, hpl]), hdec]

/-- C2 witness: a concrete numeric table and its categorical relabeling agree
on the category `[true, false]`. -/
theorem CellCounts_encoding_invariant_witness :
    charExample.posLabels.length = charExample.m ∧
    validShape numExample.m numExample.subjects comboExample = true ∧
    validShape charExample.m charExample.subjects comboExample = true ∧
    numExample.subjects.map (fun cells => cells.map decodeNumericCell)
      = charExample.subjects.map (fun cells => cells.map (decodeCharCell charExample.posLabels)) ∧
    CellCounts numExample comboExample = CellCounts_character charExample comboExample :=
  ⟨by decide, by decide, by decide, by decide,
   CellCounts_encoding_invariant numExample charExample comboExample
     (by decide) (by decide) (by decide) (by decide)⟩

/-- Helper: filtering a cons for equality hits the head exactly when the
sought element equals it. -/
theorem filter_cons_head {α : Type} [BEq α] [LawfulBEq α] [DecidableEq α] (b a : α) (l : List α) :
    ((b :: l).filter (fun x => x == a)).length
      = (if a = b then 1 else 0) + (l.filter (fun x => x == a)).length := by
  rw [List.filter_cons]
  by_cases h : a = b
  · rw [if_pos (by simp [h] : (b == a) = true), if_pos h]
    simp
    omega
  · rw [if_neg (by simp [Ne.symm h] : ¬((b == a) = true)), if_neg h]
    simp

/-- Helper: in a duplicate-free list, filtering for a present element yields
exactly one hit. -/
theorem filter_beq_length_one {α : Type} [BEq α] [LawfulBEq α] [DecidableEq α] :
    ∀ (l : List α), l.Nodup → ∀ a ∈ l, (l.filter (fun x => x == a)).length = 1 := by
  intro l
  induction l with
  | nil => intro _ a ha; exact absurd ha (List.not_mem_nil a)
  | cons b bs ih =>
    intro hnd a ha
    rw [filter_cons_head]
    rcases List.mem_cons.mp ha with hab | hmem
    · have hnotmem : a ∉ bs := fun hin => (List.nodup_cons.mp hnd).1 (hab ▸ hin)
      have hfil : bs.filter (fun x => x == a) = [] := by
        apply List.filter_eq_nil_iff.mpr
        intro y hy hbeq
        exact hnotmem (beq_iff_eq.mp hbeq ▸ hy)
      rw [if_pos hab, hfil]
      rfl
    · have hba : a ≠ b := by
        intro hab
        exact (List.nodup_cons.mp hnd).1 (hab ▸ hmem)
      rw [if_neg hba, ih (List.nodup_cons.mp hnd).2 a hmem]

/-- Helper: peeling one category off the double-counting sum. -/
theorem filter_cons_length_sum {α : Type} [BEq α] [LawfulBEq α] [DecidableEq α] (cb : α) (cbs : List α) :
    ∀ (cells : List α),
      (cells.map (fun c => ((cb :: cbs).filter (fun x => x == c)).length)).sum
        = (cells.filter (fun c => c == cb)).length
          + (cells.map (fun c => (cbs.filter (fun x => x == c)).length)).sum := by
  intro cells
  induction cells with
  | nil => simp
  | cons c cs ih =>
    rw [List.map_cons, List.sum_cons, filter_cons_head cb c cbs, ih,
      filter_cons_head c cb cs, List.map_cons, List.sum_cons]
    by_cases h : c = cb
    · rw [if_pos h, if_pos h.symm]
      omega
    · rw [if_neg h, if_neg (fun hh => h hh.symm)]
      omega

/-- Helper: double counting — summing per-category match counts over the
category list equals summing per-cell hit counts over the cells. -/
theorem counts_rowSum_exchange (cells : List (List Bool)) :
    ∀ (combos : List (List Bool)),
      (combos.map (fun cb => countMatching cells cb)).sum
        = (cells.map (fun c => (combos.filter (fun x => x == c)).length)).sum := by
  intro combos
  induction combos with
  | nil => simp
  | cons cb cbs ih =>
    rw [List.map_cons, List.sum_cons, ih, filter_cons_length_sum cb cbs cells]
    rfl

/-- Helper: when the duplicate-free category list covers every cell, each cell
is hit exactly once. -/
theorem covered_filter_sum (combos : List (List Bool)) (hnd : combos.Nodup) :
    ∀ (cells : List (List Bool)), (∀ c ∈ cells, c ∈ combos) →
      (cells.map (fun c => (combos.filter (fun x => x == c)).length)).sum = cells.length := by
  intro cells
  induction cells with
  | nil => intro _; simp
  | cons c cs ih =>
    intro hcov
    simp only [List.map_cons, List.sum_cons, List.length_cons]
    rw [filter_beq_length_one combos hnd c (hcov c (by simp)),
      ih (fun y hy => hcov y (by simp [hy]))]
    omega

/-- Helper: per-row conservation under exhaustive duplicate-free categories. -/
theorem rowSum_eq_total (combos : List (List Bool)) (hnd : combos.Nodup)
    (cells : List (List Bool)) (hcov : ∀ c ∈ cells, c ∈ combos) :
    (combos.map (fun cb => countMatching cells cb)).sum = cells.length := by
  rw [counts_rowSum_exchange, covered_filter_sum combos hnd cells hcov]

/-- C3 counterexample: one marker, category list `[[true]]` (the spec's
`K = 2^1 - 1` with the all-negative combination excluded), and one subject
with a single all-negative cell: the counter accepts the input, yet the row
sum is 0 while the subject's total cell count is 1. -/
theorem CellCounts_conservation_counterexample :
    CellCounts conservationGap [[true]] = .ok [[0]] ∧
    rowSums [[0]] = [0] ∧
    subjectTotals conservationGap = [1] ∧
    ([0] : List Nat) ≠ [1] :=
  ⟨rfl, rfl, rfl, by decide⟩

/-- C3 amended: for every accepted input whose category list is duplicate-free
and covers the positivity vector of every cell of the data, the row sums of
the returned count matrix equal the per-subject total cell counts (the
conservation law holds exactly when the categories tile the observed cells;
a cell matching no listed category — e.g. an all-negative cell under the
`2^m - 1` convention — is counted by no column). -/
theorem CellCounts_rowSums (x : NumData) (combos : List (List Bool))
    (mat : List (List Nat)) (hok : CellCounts x combos = .ok mat)
    (hnd : combos.Nodup)
    (hcov : ∀ cells ∈ x.subjects, ∀ c ∈ cells, decodeNumericCell c ∈ combos) :
    rowSums mat = subjectTotals x := by
  rw [CellCounts_ok_eq x combos mat hok]
  unfold rowSums cellCountsCore subjectTotals
  rw [List.map_map, List.map_map]
  apply List.map_congr_left
  intro cells hcells
  have hcov2 : ∀ c ∈ cells.map decodeNumericCell, c ∈ combos := by
    intro c hc
    obtain ⟨c0, hc0, rfl⟩ := List.mem_map.mp hc
    exact hcov cells hcells c0 hc0
  have := rowSum_eq_total combos hnd (cells.map decodeNumericCell) hcov2
  simpa [Function.comp, countMatching] using this

/-- C3 witness: one marker, an exhaustive duplicate-free category list
`[[true], [false]]`, one subject with one positive and one negative cell:
row sum 2 equals the subject's total cell count 2. -/
theorem CellCounts_rowSums_witness :
    CellCounts conservationOkInput conservationOkCombos = .ok [[1, 1]] ∧
    conservationOkCombos.Nodup ∧
    (∀ cells ∈ conservationOkInput.subjects, ∀ c ∈ cells,
      decodeNumericCell c ∈ conservationOkCombos) ∧
    rowSums [[1, 1]] = subjectTotals conservationOkInput :=
  ⟨rfl, by decide, by decide,
   CellCounts_rowSums conservationOkInput conservationOkCombos [[1, 1]]
     rfl (by decide) (by decide)⟩

/-- C4: an accepted numeric call returns one row per subject in input order
and one column per category in the order of the supplied list, and the
`(subject, category)` entry counts exactly the subject's cells whose decoded
marker-positivity vector is identical to the category's definition. -/
theorem CellCounts_entries (x : NumData) (combos : List (List Bool))
    (mat : List (List Nat)) (hok : CellCounts x combos = .ok mat) :
    mat.length = x.subjects.length ∧
    (∀ i : Fin mat.length, (mat.get i).length = combos.length) ∧
    (∀ (i : Nat) (hi : i < x.subjects.length) (hmi : i < mat.length)
       (k : Nat) (hk : k < combos.length) (hmk : k < (mat.get ⟨i, hmi⟩).length),
       (mat.get ⟨i, hmi⟩).get ⟨k, hmk⟩
         = countMatching ((x.subjects.get ⟨i, hi⟩).map decodeNumericCell)
             (combos.get ⟨k, hk⟩)) := by
  have hmat := CellCounts_ok_eq x combos mat hok
  subst hmat
  refine ⟨by simp [cellCountsCore], ?_, ?_⟩
  · intro i
    simp [cellCountsCore, List.get_eq_getElem]
  · intro i hi hmi k hk hmk
    simp [cellCountsCore, List.get_eq_getElem]

/-- C4 witness: the two-marker example table: entry `(0, 0)` counts the one
cell matching `[true, false]` exactly. -/
theorem CellCounts_entries_witness :
    CellCounts numExample comboExample = .ok [[1]] ∧
    (([[1]] : List (List Nat)).length = numExample.subjects.length ∧
     (∀ i : Fin ([[1]] : List (List Nat)).length,
       (([[1]] : List (List Nat)).get i).length = comboExample.length) ∧
     (∀ (i : Nat) (hi : i < numExample.subjects.length)
        (hmi : i < ([[1]] : List (List Nat)).length)
        (k : Nat) (hk : k < comboExample.length)
        (hmk : k < (([[1]] : List (List Nat)).get ⟨i, hmi⟩).length),
        (([[1]] : List (List Nat)).get ⟨i, hmi⟩).get ⟨k, hmk⟩
          = countMatching ((numExample.subjects.get ⟨i, hi⟩).map decodeNumericCell)
              (comboExample.get ⟨k, hk⟩))) :=
  ⟨rfl, CellCounts_entries numExample comboExample [[1]] rfl⟩

/-- C10: both exported Counter wrappers establish the RNG scope before
evaluating the underlying C++ function, and a C++ exception raised by the
counter is converted into an R error delivered to the caller — it never
propagates across the native boundary. -/
theorem cellCounts_wrappers_convert_exceptions (x : NumData) (dat : CharData)
    (combos combosC : List (List Bool)) (m mc : String)
    (hx : cellCountsNative x combos = .thrown m)
    (hd : cellCountsCharNative dat combosC = .thrown mc) :
    COMPASS_CellCounts_wrapper x combos
      = (.rError m, [.rngScopeEstablish, .evalUnderlying, .catchToRError]) ∧
    COMPASS_CellCounts_character_wrapper dat combosC
      = (.rError mc, [.rngScopeEstablish, .evalUnderlying, .catchToRError]) ∧
    (∀ (x2 : NumData) (combos2 : List (List Bool)),
      (COMPASS_CellCounts_wrapper x2 combos2).2.take 2
        = [.rngScopeEstablish, .evalUnderlying]) ∧
    (∀ (dat2 : CharData) (combos2 : List (List Bool)),
      (COMPASS_CellCounts_character_wrapper dat2 combos2).2.take 2
        = [.rngScopeEstablish, .evalUnderlying]) := by
  refine ⟨?_, ?_, ?_, ?_⟩
  · unfold COMPASS_CellCounts_wrapper rcppWrap
    rw [hx]
  · unfold COMPASS_CellCounts_character_wrapper rcppWrap
    rw [hd]
  · intro x2 combos2
    unfold COMPASS_CellCounts_wrapper rcppWrap
    cases cellCountsNative x2 combos2 <;> rfl
  · intro dat2 combos2
    unfold COMPASS_CellCounts_character_wrapper rcppWrap
    cases cellCountsCharNative dat2 combos2 <;> rfl

/-- C10 witness: an empty cell table makes both underlying counters throw;
both wrappers deliver the message as an R error with the RNG scope
established first. -/
theorem cellCounts_wrappers_convert_exceptions_witness :
    cellCountsNative emptyNumInput [] = .thrown cellCountsErrMsg ∧
    cellCountsCharNative emptyCharInput [] = .thrown cellCountsErrMsg ∧
    (COMPASS_CellCounts_wrapper emptyNumInput []
       = (.rError cellCountsErrMsg, [.rngScopeEstablish, .evalUnderlying, .catchToRError]) ∧
     COMPASS_CellCounts_character_wrapper emptyCharInput []
       = (.rError cellCountsErrMsg, [.rngScopeEstablish, .evalUnderlying, .catchToRError]) ∧
     (∀ (x2 : NumData) (combos2 : List (List Bool)),
       (COMPASS_CellCounts_wrapper x2 combos2).2.take 2
         = [.rngScopeEstablish, .evalUnderlying]) ∧
     (∀ (dat2 : CharData) (combos2 : List (List Bool)),
       (COMPASS_CellCounts_character_wrapper dat2 combos2).2.take 2
         = [.rngScopeEstablish, .evalUnderlying])) :=
  ⟨rfl, rfl,
   cellCounts_wrappers_convert_exceptions emptyNumInput emptyCharInput [] []
     cellCountsErrMsg cellCountsErrMsg rfl rfl⟩

/-- Helper: summing after dividing every entry by a constant divides the
sum. -/
theorem sum_map_div (l : List ℚ) (s : ℚ) :
    (l.map (fun q => q / s)).sum = l.sum / s := by
  induction l with
  | nil => simp
  | cons q qs ih => simp [ih, add_div]

/-- Helper: a normalized row of non-negative entries with positive sum is a
valid simplex row. -/
theorem normalizeRow_simplex (g : List ℚ) (hnn : ∀ q ∈ g, 0 ≤ q)
    (hs : 0 < g.sum) : simplexRow (normalizeRow g) := by
  constructor
  · intro q hq
    obtain ⟨p, hp, rfl⟩ := List.mem_map.mp hq
    exact div_nonneg (hnn p hp) (le_of_lt hs)
  · unfold normalizeRow
    rw [sum_map_div, div_self (ne_of_gt hs)]
    norm_num [tol]

/-- Helper: clamping preserves non-negativity. -/
theorem clampRow_nonneg (g : List ℚ) (h : ∀ q ∈ g, 0 ≤ q) :
    ∀ q ∈ clampRow g, 0 ≤ q := by
  intro q hq
  unfold clampRow at hq
  split at hq
  · obtain ⟨p, hp, rfl⟩ := List.mem_map.mp hq
    norm_num [eps]
  · exact h q hq

/-- Helper: clamping a non-empty row of non-negative entries yields a
positive sum. -/
theorem clampRow_sum_pos (g : List ℚ) (h : ∀ q ∈ g, 0 ≤ q) (hne : g ≠ []) :
    0 < (clampRow g).sum := by
  by_cases hz : g.sum = 0
  · unfold clampRow
    rw [if_pos hz, List.map_const', List.sum_replicate, nsmul_eq_mul]
    have hl : 0 < g.length := List.length_pos.mpr hne
    have he : (0 : ℚ) < eps := by norm_num [eps]
    exact mul_pos (by exact_mod_cast hl) he
  · unfold clampRow
    rw [if_neg hz]
    exact lt_of_le_of_ne (List.sum_nonneg h) (Ne.symm hz)

/-- Helper: pointwise products of non-negative concentrations and positive
draws are non-negative. -/
theorem zipWith_mul_nonneg :
    ∀ (conc r : List ℚ), (∀ a ∈ conc, 0 ≤ a) → (∀ u ∈ r, 0 < u) →
      ∀ q ∈ List.zipWith (fun a u => a * u) conc r, 0 ≤ q
  | [], _, _, _ => by simp
  | _ :: _, [], _, _ => by simp
  | a :: as, u :: us, hc, hr => by
    intro q hq
    rw [List.zipWith_cons_cons] at hq
    rcases List.mem_cons.mp hq with h | h
    · rw [h]
      exact mul_nonneg (hc a (by simp)) (le_of_lt (hr u (by simp)))
    · exact zipWith_mul_nonneg as us (fun y hy => hc y (by simp [hy]))
        (fun y hy => hr y (by simp [hy])) q h

/-- Helper: a Dirichlet-type row draw from non-negative concentrations and
positive draws over a non-empty support is a valid simplex row. -/
theorem dirichletRow_simplex (conc r : List ℚ) (hc : ∀ a ∈ conc, 0 ≤ a)
    (hr : ∀ u ∈ r, 0 < u) (hcne : conc ≠ []) (hrne : r ≠ []) :
    simplexRow (dirichletRow conc r) := by
  have hg : ∀ q ∈ List.zipWith (fun a u => a * u) conc r, 0 ≤ q :=
    zipWith_mul_nonneg conc r hc hr
  have hgne : List.zipWith (fun a u => a * u) conc r ≠ [] := by
    apply List.length_pos.mp
    rw [List.length_zipWith]
    have h1 : 0 < conc.length := List.length_pos.mpr hcne
    have h2 : 0 < r.length := List.length_pos.mpr hrne
    omega
  exact normalizeRow_simplex _ (clampRow_nonneg _ hg) (clampRow_sum_pos _ hg hgne)

/-- Helper: restricted concentrations are non-negative. -/
theorem restrictedConcRow_nonneg (alpha : ℚ) (h : 0 ≤ alpha) :
    ∀ (gam : List Bool) (ns : List Nat), ∀ q ∈ restrictedConcRow alpha gam ns, 0 ≤ q := by
  intro gam
  induction gam with
  | nil => intro ns q hq; simp [restrictedConcRow] at hq
  | cons g gs ih =>
    intro ns q hq
    cases ns with
    | nil => simp [restrictedConcRow] at hq
    | cons n ns2 =>
      rw [restrictedConcRow, List.zipWith_cons_cons] at hq
      rcases List.mem_cons.mp hq with h1 | h1
      · rw [h1]
        cases g with
        | true => simpa using add_nonneg h (Nat.cast_nonneg n)
        | false => simp
      · exact ih ns2 q (by rw [restrictedConcRow]; exact h1)

/-- Helper: full concentrations are non-negative. -/
theorem fullConcRow_nonneg (alpha : ℚ) (h : 0 ≤ alpha) (ns : List Nat) :
    ∀ q ∈ fullConcRow alpha ns, 0 ≤ q := by
  intro q hq
  rw [fullConcRow] at hq
  obtain ⟨n, _, rfl⟩ := List.mem_map.mp hq
  exact add_nonneg h (Nat.cast_nonneg n)

/-- Helper: a full concentration row over a non-empty count row is
non-empty. -/
theorem fullConcRow_ne_nil (alpha : ℚ) (ns : List Nat) (h : ns ≠ []) :
    fullConcRow alpha ns ≠ [] := by
  cases ns with
  | nil => exact absurd rfl h
  | cons a as => simp [fullConcRow]

/-- Helper: every row of the full-space per-subject sampler is a simplex. -/
theorem full_sampler_simplex (alpha : ℚ) (ha : 0 < alpha) :
    ∀ (counts : List (List Nat)) (draws : List (List ℚ)),
      (∀ row ∈ counts, row ≠ []) →
      (∀ row ∈ draws, row ≠ [] ∧ ∀ u ∈ row, 0 < u) →
      ∀ p ∈ List.zipWith (fun n r => dirichletRow (fullConcRow alpha n) r) counts draws,
        simplexRow p := by
  intro counts
  induction counts with
  | nil => intro draws _ _ p hp; simp at hp
  | cons n ns ih =>
    intro draws hc hd p hp
    cases draws with
    | nil => simp at hp
    | cons r rs2 =>
      rw [List.zipWith_cons_cons] at hp
      rcases List.mem_cons.mp hp with h | h
      · rw [h]
        exact dirichletRow_simplex _ _ (fullConcRow_nonneg alpha (le_of_lt ha) n)
          (hd r (by simp)).2 (fullConcRow_ne_nil alpha n (hc n (by simp)))
          (hd r (by simp)).1
      · exact ih rs2 (fun y hy => hc y (by simp [hy]))
          (fun y hy => hd y (by simp [hy])) p h

/-- Helper: every row of the active-set-restricted per-subject sampler is a
simplex (the degenerate all-inactive row is rescued by the clamp). -/
theorem restricted_sampler_simplex (alpha : ℚ) (ha : 0 < alpha) :
    ∀ (act : List (List Bool)) (counts : List (List Nat)) (draws : List (List ℚ)),
      (∀ row ∈ act, row ≠ []) →
      (∀ row ∈ counts, row ≠ []) →
      (∀ row ∈ draws, row ≠ [] ∧ ∀ u ∈ row, 0 < u) →
      ∀ p ∈ List.zipWith (fun gn r => dirichletRow (restrictedConcRow alpha gn.1 gn.2) r)
          (act.zip counts) draws, simplexRow p := by
  intro act
  induction act with
  | nil => intro counts draws _ _ _ p hp; simp at hp
  | cons g gs ih =>
    intro counts draws hg hc hd p hp
    cases counts with
    | nil => simp at hp
    | cons n ns =>
      cases draws with
      | nil => simp at hp
      | cons r rs2 =>
        rw [List.zip_cons_cons, List.zipWith_cons_cons] at hp
        rcases List.mem_cons.mp hp with h | h
        · rw [h]
          have hgne : g ≠ [] := hg g (by simp)
          have hnne : n ≠ [] := hc n (by simp)
          have hcne : restrictedConcRow alpha g n ≠ [] := by
            apply List.length_pos.mp
            rw [restrictedConcRow, List.length_zipWith]
            have h1 : 0 < g.length := List.length_pos.mpr hgne
            have h2 : 0 < n.length := List.length_pos.mpr hnne
            omega
          exact dirichletRow_simplex _ _
            (restrictedConcRow_nonneg alpha (le_of_lt ha) g n)
            (hd r (by simp)).2 hcne (hd r (by simp)).1
        · exact ih ns rs2 (fun y hy => hg y (by simp [hy]))
            (fun y hy => hc y (by simp [hy]))
            (fun y hy => hd y (by simp [hy])) p h

/-- C1: For valid inputs — positive hyperparameters, `K ≥ 1`, per-subject
counts (non-negative by construction), well-shaped activation and draw rows
with positive gamma draws — every row of `Ps` and of `Pu` returned by
`samplePuPs` and by `samplePuPs_full` is a valid simplex: entries are
non-negative and each row sum is 1 within the floating tolerance 1e-9. -/
theorem samplePuPs_rows_are_simplices
    (alphau alphas : ℚ) (gammat : List (List Bool)) (T K : Nat)
    (nsi nui : List (List Nat)) (d M : ℚ) (rs ru : List (List ℚ))
    (hau : 0 < alphau) (has : 0 < alphas) (hK : 1 ≤ K)
    (hg : ∀ row ∈ gammat, row.length = K)
    (hns : ∀ row ∈ nsi, row.length = K)
    (hnu : ∀ row ∈ nui, row.length = K)
    (hrs : ∀ row ∈ rs, row.length = K ∧ ∀ u ∈ row, 0 < u)
    (hru : ∀ row ∈ ru, row.length = K ∧ ∀ u ∈ row, 0 < u) :
    (∀ p ∈ (samplePuPs alphau alphas gammat T K nsi nui d M rs ru).1, simplexRow p) ∧
    (∀ p ∈ (samplePuPs alphau alphas gammat T K nsi nui d M rs ru).2, simplexRow p) ∧
    (∀ p ∈ (samplePuPs_full alphau alphas gammat T K nsi nui d M rs ru).1, simplexRow p) ∧
    (∀ p ∈ (samplePuPs_full alphau alphas gammat T K nsi nui d M rs ru).2, simplexRow p) := by
  have hgne : ∀ row ∈ gammat, row ≠ [] := fun row hr =>
    List.length_pos.mp (by rw [hg row hr]; omega)
  have hnsne : ∀ row ∈ nsi, row ≠ [] := fun row hr =>
    List.length_pos.mp (by rw [hns row hr]; omega)
  have hnune : ∀ row ∈ nui, row ≠ [] := fun row hr =>
    List.length_pos.mp (by rw [hnu row hr]; omega)
  have hrs2 : ∀ row ∈ rs, row ≠ [] ∧ ∀ u ∈ row, 0 < u := fun row hr =>
    ⟨List.length_pos.mp (by rw [(hrs row hr).1]; omega), (hrs row hr).2⟩
  have hru2 : ∀ row ∈ ru, row ≠ [] ∧ ∀ u ∈ row, 0 < u := fun row hr =>
    ⟨List.length_pos.mp (by rw [(hru row hr).1]; omega), (hru row hr).2⟩
  refine ⟨?_, ?_, ?_, ?_⟩
  · exact restricted_sampler_simplex alphas has gammat nsi rs hgne hnsne hrs2
  · exact full_sampler_simplex alphau hau nui ru hnune hru2
  · exact full_sampler_simplex alphas has nsi rs hnsne hrs2
  · exact full_sampler_simplex alphau hau nui ru hnune hru2

/-- C1 witness: one subject, one category, all-inactive activation row (the
degenerate case rescued by the clamp), unit hyperparameters and draws. -/
theorem samplePuPs_rows_are_simplices_witness :
    (0 : ℚ) < 1 ∧
    ((∀ p ∈ (samplePuPs 1 1 [[false]] 1 1 [[2]] [[3]] 1 1 [[1]] [[2]]).1, simplexRow p) ∧
     (∀ p ∈ (samplePuPs 1 1 [[false]] 1 1 [[2]] [[3]] 1 1 [[1]] [[2]]).2, simplexRow p) ∧
     (∀ p ∈ (samplePuPs_full 1 1 [[false]] 1 1 [[2]] [[3]] 1 1 [[1]] [[2]]).1, simplexRow p) ∧
     (∀ p ∈ (samplePuPs_full 1 1 [[false]] 1 1 [[2]] [[3]] 1 1 [[1]] [[2]]).2, simplexRow p)) :=
  ⟨by norm_num,
   samplePuPs_rows_are_simplices 1 1 [[false]] 1 1 [[2]] [[3]] 1 1 [[1]] [[2]]
     (by norm_num) (by norm_num) (by norm_num)
     (by decide) (by decide) (by decide)
     (by norm_num) (by norm_num)⟩

end COMPASS
